import Mathlib

/-
Verification development for the moonship-core coordination layer
(`moonship/core/redis.py` and `moonship/core/api.py`).

The Python sources are shallowly embedded: the Redis keyspace is modelled
as explicit stores (hash maps and lists keyed by strings, plus a TTL map),
pipelines become lists of queued steps applied in order by `execute`,
stateful classes become explicit state passing, and Python exceptions
become `Option`/error-carrying results.  Redis hashes cannot hold duplicate
fields and a container that becomes empty is indistinguishable from an
absent key, so an association list with unique keys (empty = absent) is a
faithful model of one hash key.
-/

namespace Moonship

/-- An entry map of one Redis hash key: association list of field/value
pairs.  Maps written by the embedded operations keep their keys unique. -/
abbrev RMap := List (String × String)

/-- Field lookup in a string-keyed association list (the embedding of
`redis.hget` / Python `dict.get`; also used for the channel-handler map). -/
def hget {α : Type} : List (String × α) → String → Option α
  | [], _ => none
  | (g, v) :: m, f => if f = g then some v else hget m f

/-- Set a single field of a hash map, overwriting any previous value
(one field/value pair of `redis.hset`).  The canonical form keeps the
updated field at the head and removes any stale entry. -/
def hsetOne {α : Type} (m : List (String × α)) (f : String) (v : α) : List (String × α) :=
  (f, v) :: m.filter (fun p => p.1 ≠ f)

/-- Apply a whole mapping with `redis.hset(key, mapping=entries)`:
every field of `entries` is set, left to right. -/
def hsetMapping (m : RMap) (entries : RMap) : RMap :=
  entries.foldl (fun acc p => hsetOne acc p.1 p.2) m

/-- Removal of one field (the embedding of Python `del d[f]`). -/
def hdel {α : Type} (m : List (String × α)) (f : String) : List (String × α) :=
  m.filter (fun p => p.1 ≠ f)

/-- The keys of an association list. -/
def keysOf {α : Type} (m : List (String × α)) : List String := m.map Prod.fst

/-- The whole shared Redis keyspace reached through the connection:
the hash portion, the list portion and the per-key TTLs.  No claim uses
one key at two container types, so splitting the keyspace by container
kind loses nothing. -/
structure Store where
  hashes : String → RMap
  lists : String → List String
  ttl : String → Option Nat

/-- The empty keyspace. -/
def Store.empty : Store := ⟨fun _ => [], fun _ => [], fun _ => none⟩

/-- Embedding of the Redis `LREM key count element` list command:
`count = 0` removes all occurrences, a positive count removes the first
`count` occurrences from the head, a negative count from the tail. -/
def lremList (count : Int) (e : String) (l : List String) : List String :=
  if count = 0 then l.filter (fun x => x ≠ e)
  else if 0 < count then lremFirst count.toNat e l
  else (lremFirst (-count).toNat e l.reverse).reverse
where
  /-- Remove the first `n` occurrences of `e`. -/
  lremFirst : Nat → String → List String → List String
    | _, _, [] => []
    | 0, _, l => l
    | n + 1, e, x :: xs => if x = e then lremFirst n e xs else x :: lremFirst (n + 1) e xs

/-- One queued step of a `RedisSharedCacheBulkOp` pipeline (only the
steps the embedded code enqueues are listed). -/
inductive BulkStep where
  | delete (key : String)
  | hset (key : String) (entries : RMap)
  | pexpire (key : String) (timeMsec : Nat)
  | lrem (key : String) (count : Int) (element : String)

/-- Apply one pipeline step to the keyspace. -/
def applyStep (st : Store) : BulkStep → Store
  | .delete k => ⟨fun x => if x = k then [] else st.hashes x,
                  fun x => if x = k then [] else st.lists x,
                  fun x => if x = k then none else st.ttl x⟩
  | .hset k entries => { st with hashes := fun x => if x = k then hsetMapping (st.hashes x) entries else st.hashes x }
  | .pexpire k t => { st with ttl := fun x => if x = k then some t else st.ttl x }
  | .lrem k c e => { st with lists := fun x => if x = k then lremList c e (st.lists x) else st.lists x }

/-- Embedding of `RedisSharedCacheBulkOp.execute`: the queued steps are
committed in enqueue order as one atomic unit. -/
def executeBulk (steps : List BulkStep) (st : Store) : Store :=
  steps.foldl applyStep st

/-- Embedding of `RedisSharedCache.map_put(storage_key, entries, append)`:
with `append = false` it runs the bulk `delete` / `map_put` pipeline;
with `append = true` it issues a plain `hset`. -/
def map_put (storage_key : String) (entries : RMap) (append : Bool) (st : Store) : Store :=
  if !append then
    executeBulk [.delete storage_key, .hset storage_key entries] st
  else
    { st with hashes := fun x => if x = storage_key then hsetMapping (st.hashes x) entries else st.hashes x }

/-- Embedding of `RedisSharedCache.map_get_entries` (`redis.hgetall`). -/
def map_get_entries (storage_key : String) (st : Store) : RMap :=
  st.hashes storage_key

/-- Embedding of `RedisSharedCache.list_remove`: `redis.lrem(key, 0, element)`. -/
def list_remove (storage_key : String) (element : String) (st : Store) : Store :=
  { st with lists := fun x => if x = storage_key then lremList 0 element (st.lists x) else st.lists x }

/-- Embedding of `RedisSharedCacheBulkOp.list_remove`: it queues
`lrem(key, 0, element)` on the pipeline. -/
def bulk_list_remove (storage_key : String) (element : String) : BulkStep :=
  .lrem storage_key 0 element

/-- Embedding of `RedisSharedCache.expire` (`redis.pexpire`). -/
def expireKey (storage_key : String) (timeMsec : Nat) (st : Store) : Store :=
  { st with ttl := fun x => if x = storage_key then some timeMsec else st.ttl x }

/-- Embedding of `RedisSharedCache.delete` (`redis.delete`). -/
def deleteKey (storage_key : String) (st : Store) : Store :=
  applyStep st (.delete storage_key)

theorem hget_filter_ne {α : Type} (m : List (String × α)) (g f : String) :
    hget (m.filter (fun p => p.1 ≠ g)) f = if f = g then none else hget m f := by
  induction m with
  | nil => simp [hget]
  | cons p m ih =>
    obtain ⟨a, b⟩ := p
    rw [List.filter_cons]
    by_cases hp : a = g
    · rw [if_neg (by simp [hp]), ih]
      by_cases h : f = g
      · simp [h]
      · have haf : ¬ f = a := fun hc => h (hc.trans hp)
        simp [h, hget, haf]
    · rw [if_pos (by simp [hp])]
      by_cases hf : f = a
      · have hfg : ¬ f = g := fun hc => hp (hf ▸ hc)
        simp [hget, hf, hfg, hp]
      · simpa [hget, hf] using ih

theorem hget_hsetOne {α : Type} (m : List (String × α)) (g : String) (v : α) (f : String) :
    hget (hsetOne m g v) f = if f = g then some v else hget m f := by
  unfold hsetOne
  by_cases h : f = g
  · simp [hget, h]
  · simp only [hget, h, if_false]
    simpa [h] using hget_filter_ne m g f

theorem hget_eq_none_of_not_mem {α : Type} (m : List (String × α)) (f : String) (h : f ∉ keysOf m) :
    hget m f = none := by
  induction m with
  | nil => rfl
  | cons p m ih =>
    obtain ⟨a, b⟩ := p
    have hfa : ¬ f = a := fun hc => h (by simp [keysOf, hc])
    have : f ∉ keysOf m := fun hc => h (by simp [keysOf] at hc ⊢; exact Or.inr hc)
    simp [hget, hfa, ih this]

theorem hget_hsetMapping (entries : RMap) (m : RMap) (h : (keysOf entries).Nodup) (f : String) :
    hget (hsetMapping m entries) f =
      match hget entries f with
      | some v => some v
      | none => hget m f := by
  induction entries generalizing m with
  | nil => simp [hsetMapping, hget]
  | cons p rest ih =>
    obtain ⟨a, b⟩ := p
    have h2 : (a :: keysOf rest).Nodup := by simpa [keysOf] using h
    have hrest : (keysOf rest).Nodup := (List.nodup_cons.mp h2).2
    have hamem : a ∉ keysOf rest := (List.nodup_cons.mp h2).1
    have step : hsetMapping m ((a, b) :: rest) = hsetMapping (hsetOne m a b) rest := rfl
    rw [step, ih (hsetOne m a b) hrest]
    by_cases hf : f = a
    · rw [hf, hget_eq_none_of_not_mem rest a hamem]
      simp [hget, hget_hsetOne]
    · cases hv : hget rest f with
      | some v => simp [hv, hget, hf]
      | none =>
        have hfil := hget_filter_ne m a f
        rw [if_neg hf] at hfil
        simpa [hv, hget, hf, hsetOne] using hfil

/-- C4: `map_put(key, entries, append=false)` is the delete-then-put bulk
commit from the source and an immediately following read of `key` returns
exactly `entries` (no leftover prior fields), while `append=true` merges:
fields of `entries` win, prior fields not present in `entries` survive.
The entry map is assumed non-empty with unique field names, as for a
Python `dict` (the Redis client rejects an empty mapping). -/
theorem map_put_replace_and_merge (k : String) (entries : RMap) (st : Store)
    (hnd : (keysOf entries).Nodup) (_hne : entries ≠ []) :
    map_put k entries false st = executeBulk [.delete k, .hset k entries] st
    ∧ (∀ f, hget (map_get_entries k (map_put k entries false st)) f = hget entries f)
    ∧ (∀ f, hget (map_get_entries k (map_put k entries true st)) f =
        match hget entries f with
        | some v => some v
        | none => hget (map_get_entries k st) f) := by
  refine ⟨rfl, fun f => ?_, fun f => ?_⟩
  · have : map_get_entries k (map_put k entries false st) = hsetMapping [] entries := by
      simp [map_put, map_get_entries, executeBulk, applyStep]
    rw [this, hget_hsetMapping entries [] hnd f]
    cases hv : hget entries f <;> simp [hget]
  · have : map_get_entries k (map_put k entries true st) = hsetMapping (st.hashes k) entries := by
      simp [map_put, map_get_entries]
    rw [this, hget_hsetMapping entries (st.hashes k) hnd f]
    rfl

theorem map_put_replace_and_merge_witness :
    map_put "k" [("a", "1")] false Store.empty
        = executeBulk [.delete "k", .hset "k" [("a", "1")]] Store.empty
    ∧ (∀ f, hget (map_get_entries "k" (map_put "k" [("a", "1")] false Store.empty)) f
        = hget [("a", "1")] f)
    ∧ (∀ f, hget (map_get_entries "k" (map_put "k" [("a", "1")] true Store.empty)) f =
        match hget [("a", "1")] f with
        | some v => some v
        | none => hget (map_get_entries "k" Store.empty) f) :=
  map_put_replace_and_merge "k" [("a", "1")] Store.empty (by decide) (by decide)

/-- C10: `list_remove` issues `LREM key 0 element`, which removes every
occurrence of the element, not only the first; the queued bulk-operation
step does the same. -/
theorem list_remove_removes_all_occurrences (k e : String) (st : Store) :
    (list_remove k e st).lists k = (st.lists k).filter (fun x => x ≠ e)
    ∧ (executeBulk [bulk_list_remove k e] st).lists k
        = (st.lists k).filter (fun x => x ≠ e) := by
  constructor <;> simp [list_remove, executeBulk, applyStep, bulk_list_remove, lremList]

/-
Connection manager: the module-level `redis` handle and `redis_ref_count`
of `moonship/core/redis.py`.  Connections are numbered so that "a new
connection" is observable: `nextConn` is the id the next
`aioredis.from_url` call would return, and `closes` records the id passed
to each underlying `close()`/`disconnect()` in order.  `init_redis`
creates a connection only when the handle is `none` (the source never
assigns `redis = None` again) and always increments the count;
`close_redis` decrements and closes when the count reaches zero, leaving
the handle in place.
-/

structure ConnState where
  redis : Option Nat
  redisRefCount : Int
  nextConn : Nat
  closes : List Nat

/-- The module state at import time: no handle, zero count. -/
def ConnState.initial : ConnState := ⟨none, 0, 0, []⟩

/-- Embedding of `init_redis` (the configuration-validation branch raises
before touching any state and is outside this claim): if no handle exists
a new connection is established, then the reference count is incremented
and the handle returned. -/
def init_redis (s : ConnState) : ConnState × Nat :=
  match s.redis with
  | none =>
      (⟨some s.nextConn, s.redisRefCount + 1, s.nextConn + 1, s.closes⟩, s.nextConn)
  | some r => ({ s with redisRefCount := s.redisRefCount + 1 }, r)

/-- Embedding of `close_redis`: decrement the count and, exactly when it
lands on zero, close the underlying connection.  The handle is left as it
is. -/
def close_redis (s : ConnState) : ConnState :=
  let rc := s.redisRefCount - 1
  if rc = 0 then
    ⟨s.redis, rc, s.nextConn, s.closes ++ [s.redis.getD 0]⟩
  else
    { s with redisRefCount := rc }

/-- One call of the acquire/release interface. -/
inductive ConnOp where
  | acquire
  | release

def runConnOp (s : ConnState) : ConnOp → ConnState
  | .acquire => (init_redis s).1
  | .release => close_redis s

/-- Run a call sequence from the import-time state. -/
def runConn (ops : List ConnOp) : ConnState :=
  ops.foldl runConnOp ConnState.initial

def countAcquire (ops : List ConnOp) : Nat :=
  ops.countP (fun o => match o with | .acquire => true | .release => false)

def countRelease (ops : List ConnOp) : Nat :=
  ops.countP (fun o => match o with | .acquire => false | .release => true)

/-- Number of releases that bring the running count back to zero, starting
from count `n`. -/
def zeroCrossings : Int → List ConnOp → Nat
  | _, [] => 0
  | n, .acquire :: rest => zeroCrossings (n + 1) rest
  | n, .release :: rest => (if n - 1 = 0 then 1 else 0) + zeroCrossings (n - 1) rest

theorem refCount_foldl (ops : List ConnOp) (s : ConnState) :
    (ops.foldl runConnOp s).redisRefCount
      = s.redisRefCount + countAcquire ops - countRelease ops := by
  induction ops generalizing s with
  | nil => simp [countAcquire, countRelease]
  | cons op rest ih =>
    cases op with
    | acquire =>
      rw [List.foldl_cons, ih]
      cases hr : s.redis <;>
        simp [runConnOp, init_redis, hr, countAcquire, countRelease, List.countP_cons] <;> ring
    | release =>
      rw [List.foldl_cons, ih]
      by_cases hz : s.redisRefCount - 1 = 0 <;>
        simp [runConnOp, close_redis, hz, countAcquire, countRelease, List.countP_cons] <;> omega

theorem redis_foldl_of_some (ops : List ConnOp) (s : ConnState) (h : s.redis.isSome) :
    (ops.foldl runConnOp s).redis = s.redis ∧ (ops.foldl runConnOp s).nextConn = s.nextConn := by
  induction ops generalizing s with
  | nil => exact ⟨rfl, rfl⟩
  | cons op rest ih =>
    cases op with
    | acquire =>
      obtain ⟨r, hr⟩ := Option.isSome_iff_exists.mp h
      rw [List.foldl_cons]
      have : runConnOp s .acquire = { s with redisRefCount := s.redisRefCount + 1 } := by
        simp [runConnOp, init_redis, hr]
      rw [this]
      exact ih _ (by simpa using h)
    | release =>
      rw [List.foldl_cons]
      by_cases hz : s.redisRefCount - 1 = 0
      · have : runConnOp s .release
            = ⟨s.redis, s.redisRefCount - 1, s.nextConn, s.closes ++ [s.redis.getD 0]⟩ := by
          simp [runConnOp, close_redis, hz]
        rw [this]
        exact ih _ (by simpa using h)
      · have : runConnOp s .release = { s with redisRefCount := s.redisRefCount - 1 } := by
          simp [runConnOp, close_redis, hz]
        rw [this]
        exact ih _ (by simpa using h)

theorem redis_foldl_of_none (ops : List ConnOp) (s : ConnState) (h : s.redis = none) :
    ((ops.foldl runConnOp s).redis = none ↔ .acquire ∉ ops)
    ∧ (.acquire ∉ ops → (ops.foldl runConnOp s).nextConn = s.nextConn) := by
  induction ops generalizing s with
  | nil => simp [h]
  | cons op rest ih =>
    cases op with
    | acquire =>
      rw [List.foldl_cons]
      have hstep : runConnOp s .acquire
          = ⟨some s.nextConn, s.redisRefCount + 1, s.nextConn + 1, s.closes⟩ := by
        simp [runConnOp, init_redis, h]
      rw [hstep]
      have := (redis_foldl_of_some rest
        ⟨some s.nextConn, s.redisRefCount + 1, s.nextConn + 1, s.closes⟩ (by simp)).1
      simp [this]
    | release =>
      rw [List.foldl_cons]
      by_cases hz : s.redisRefCount - 1 = 0
      · have hstep : runConnOp s .release
            = ⟨s.redis, s.redisRefCount - 1, s.nextConn, s.closes ++ [s.redis.getD 0]⟩ := by
          simp [runConnOp, close_redis, hz]
        rw [hstep]
        have := ih ⟨s.redis, s.redisRefCount - 1, s.nextConn, s.closes ++ [s.redis.getD 0]⟩ h
        simpa using this
      · have hstep : runConnOp s .release = { s with redisRefCount := s.redisRefCount - 1 } := by
          simp [runConnOp, close_redis, hz]
        rw [hstep]
        have := ih { s with redisRefCount := s.redisRefCount - 1 } h
        simpa using this

theorem closes_foldl (ops : List ConnOp) (s : ConnState) :
    (ops.foldl runConnOp s).closes.length
      = s.closes.length + zeroCrossings s.redisRefCount ops := by
  induction ops generalizing s with
  | nil => simp [zeroCrossings]
  | cons op rest ih =>
    cases op with
    | acquire =>
      rw [List.foldl_cons, ih]
      cases hr : s.redis <;>
        simp [runConnOp, init_redis, hr, zeroCrossings, refCount_foldl]
    | release =>
      rw [List.foldl_cons, ih]
      by_cases hz : s.redisRefCount - 1 = 0 <;>
        simp [runConnOp, close_redis, hz, zeroCrossings] <;> omega

/-- C1 counterexample: after one `acquire` followed by one `release` the
reference count is zero yet the handle still exists (it is never cleared),
and a further `acquire` hands back the already-closed connection `0`
without establishing a new one (`nextConn` stays `1`, and connection `0`
is on the closed list). -/
theorem connection_manager_counterexample :
    (runConn [.acquire, .release]).redisRefCount = 0
    ∧ (runConn [.acquire, .release]).redis = some 0
    ∧ (runConn [.acquire, .release, .acquire]).redis = some 0
    ∧ (runConn [.acquire, .release, .acquire]).nextConn = 1
    ∧ (runConn [.acquire, .release, .acquire]).closes = [0]
    ∧ (runConn [.acquire, .release, .acquire, .release]).closes = [0, 0] := by
  refine ⟨rfl, rfl, rfl, rfl, rfl, rfl⟩

/-- C1 amended: for every call sequence, the handle exists iff at least
one `acquire` has ever occurred (it is created lazily by the first
`acquire` and never cleared), the reference count equals acquires minus
releases, at most one underlying connection is ever established, and the
underlying close runs exactly once per release that returns the count to
zero — so a release/re-acquire cycle reuses the closed handle and can
close it again, rather than establishing a new connection. -/
theorem connection_manager_invariant (ops : List ConnOp) :
    ((runConn ops).redis = none ↔ .acquire ∉ ops)
    ∧ (runConn ops).redisRefCount = (countAcquire ops : Int) - countRelease ops
    ∧ (runConn ops).nextConn ≤ 1
    ∧ (runConn ops).closes.length = zeroCrossings 0 ops := by
  refine ⟨(redis_foldl_of_none ops ConnState.initial rfl).1, ?_, ?_, ?_⟩
  · have := refCount_foldl ops ConnState.initial
    simpa [ConnState.initial, runConn] using this
  · have main : ∀ (t : List ConnOp) (s : ConnState), s.redis = none → s.nextConn = 0 →
        (t.foldl runConnOp s).nextConn ≤ 1 := by
      intro t
      induction t with
      | nil =>
        intro s _ h2
        simp [h2]
      | cons op rest ih =>
        intro s h1 h2
        cases op with
        | acquire =>
          rw [List.foldl_cons]
          have hstep : runConnOp s .acquire
              = ⟨some s.nextConn, s.redisRefCount + 1, s.nextConn + 1, s.closes⟩ := by
            simp [runConnOp, init_redis, h1]
          rw [hstep]
          have := (redis_foldl_of_some rest
            ⟨some s.nextConn, s.redisRefCount + 1, s.nextConn + 1, s.closes⟩ (by simp)).2
          rw [this]
          simp [h2]
        | release =>
          rw [List.foldl_cons]
          by_cases hz : s.redisRefCount - 1 = 0
          · have hstep : runConnOp s .release
                = ⟨s.redis, s.redisRefCount - 1, s.nextConn, s.closes ++ [s.redis.getD 0]⟩ := by
              simp [runConnOp, close_redis, hz]
            rw [hstep]
            exact ih _ h1 h2
          · have hstep : runConnOp s .release = { s with redisRefCount := s.redisRefCount - 1 } := by
              simp [runConnOp, close_redis, hz]
            rw [hstep]
            exact ih _ h1 h2
    exact main ops ConnState.initial rfl rfl
  · have := closes_foldl ops ConnState.initial
    simpa [ConnState.initial, runConn] using this

/-
Message bus registration (`RedisMessageBus.subscribe` / `unsubscribe`).
Handlers are opaque callables; only their identity matters here, so they
are modelled by numbers.  `channelHandlers` embeds `_channel_handlers`
and `transportSubs` the set of channels currently subscribed on the
`PubSub` transport (`pubsub.subscribe` adds a channel, idempotently;
`pubsub.unsubscribe` on an unknown channel is a no-op).
-/

abbrev Handler := Nat

structure BusState where
  channelHandlers : List (String × List Handler)
  transportSubs : List String

def BusState.initial : BusState := ⟨[], []⟩

/-- Python exceptions the registration code can raise. -/
inductive PyErr where
  | keyError
  | valueError
deriving DecidableEq, Repr

/-- Embedding of Python `list.remove`: drop the first occurrence. -/
def pyListRemove (h : Handler) : List Handler → List Handler
  | [] => []
  | x :: xs => if x = h then xs else x :: pyListRemove h xs

/-- Embedding of `RedisMessageBus.subscribe`: a channel seen for the first
time is subscribed on the transport and given an empty handler list, then
the handler is appended unless it is already registered. -/
def subscribe (s : BusState) (c : String) (h : Handler) : BusState :=
  match hget s.channelHandlers c with
  | none =>
      ⟨hsetOne s.channelHandlers c [h],
       if c ∈ s.transportSubs then s.transportSubs else c :: s.transportSubs⟩
  | some hs =>
      if h ∈ hs then s
      else { s with channelHandlers := hsetOne s.channelHandlers c (hs ++ [h]) }

/-- Embedding of `RedisMessageBus.unsubscribe`.  The first component is
the raised exception, if any; the second is the state at that point (the
source raises before performing any mutation).  With no handler argument
`del` removes the whole channel entry (`KeyError` if absent); with a
handler, `list.remove` drops it (`ValueError` if absent), deleting the
entry when the list empties.  Afterwards, if the channel is no longer
registered, the transport unsubscribes. -/
def unsubscribe (s : BusState) (c : String) (h : Option Handler) : Option PyErr × BusState :=
  match h with
  | none =>
    match hget s.channelHandlers c with
    | none => (some .keyError, s)
    | some _ =>
      (none, ⟨hdel s.channelHandlers c, s.transportSubs.filter (fun x => x ≠ c)⟩)
  | some h =>
    match hget s.channelHandlers c with
    | none =>
      (none, { s with transportSubs := s.transportSubs.filter (fun x => x ≠ c) })
    | some hs =>
      if h ∈ hs then
        let hs2 := pyListRemove h hs
        if hs2 = [] then
          (none, ⟨hdel s.channelHandlers c, s.transportSubs.filter (fun x => x ≠ c)⟩)
        else
          (none, { s with channelHandlers := hsetOne s.channelHandlers c hs2 })
      else (some .valueError, s)

/-- One registration call on the bus. -/
inductive BusOp where
  | sub (c : String) (h : Handler)
  | unsub (c : String) (h : Option Handler)

/-- Apply one call; a raised exception leaves the state as it was at the
raise point. -/
def runBusOp (s : BusState) : BusOp → BusState
  | .sub c h => subscribe s c h
  | .unsub c h => (unsubscribe s c h).2

def runBus (ops : List BusOp) : BusState :=
  ops.foldl runBusOp BusState.initial

/-- The registration invariant of the source: a channel is subscribed on
the transport iff it has a non-empty handler list, handler lists hold no
duplicates, and the transport subscription set is a set. -/
def BusInv (s : BusState) : Prop :=
  (∀ c, c ∈ s.transportSubs ↔ ∃ hs, hget s.channelHandlers c = some hs ∧ hs ≠ [])
  ∧ (∀ c hs, hget s.channelHandlers c = some hs → hs.Nodup ∧ hs ≠ [])
  ∧ s.transportSubs.Nodup

theorem mem_filter_ne (l : List String) (c x : String) :
    x ∈ l.filter (fun y => y ≠ c) ↔ x ∈ l ∧ x ≠ c := by
  simp [List.mem_filter]

theorem pyListRemove_of_nodup (hs : List Handler) (h : Handler) (hnd : hs.Nodup) :
    (pyListRemove h hs).Nodup ∧ ∀ x, x ∈ pyListRemove h hs ↔ x ∈ hs ∧ x ≠ h := by
  induction hs with
  | nil => simp [pyListRemove]
  | cons a rest ih =>
    have hr : rest.Nodup := (List.nodup_cons.mp hnd).2
    have ha : a ∉ rest := (List.nodup_cons.mp hnd).1
    by_cases hah : a = h
    · subst hah
      refine ⟨by simpa [pyListRemove] using hr, fun x => ?_⟩
      simp only [pyListRemove, if_pos rfl, List.mem_cons]
      constructor
      · intro hx
        exact ⟨Or.inr hx, fun hxa => ha (hxa ▸ hx)⟩
      · rintro ⟨hx | hx, hne⟩
        · exact absurd hx hne
        · exact hx
    · obtain ⟨ihn, ihm⟩ := ih hr
      refine ⟨?_, fun x => ?_⟩
      · simp only [pyListRemove, if_neg hah]
        refine List.nodup_cons.mpr ⟨fun hc => ?_, ihn⟩
        exact ha ((ihm a).mp hc).1
      · simp only [pyListRemove, if_neg hah, List.mem_cons, ihm x]
        constructor
        · rintro (rfl | ⟨hx, hne⟩)
          · exact ⟨Or.inl rfl, hah⟩
          · exact ⟨Or.inr hx, hne⟩
        · rintro ⟨rfl | hx, hne⟩
          · exact Or.inl rfl
          · exact Or.inr ⟨hx, hne⟩

theorem busInv_subscribe (s : BusState) (c : String) (h : Handler) (inv : BusInv s) :
    BusInv (subscribe s c h) := by
  obtain ⟨i1, i2, i3⟩ := inv
  cases hc : hget s.channelHandlers c with
  | none =>
    refine ⟨fun x => ?_, fun x hs hx => ?_, ?_⟩
    · simp only [subscribe, hc]
      rw [hget_hsetOne]
      by_cases hxc : x = c
      · subst hxc
        by_cases hmem : x ∈ s.transportSubs <;> simp [hmem]
      · rw [if_neg hxc]
        have := i1 x
        by_cases hmem : c ∈ s.transportSubs
        · simpa [hmem, hxc] using this
        · simpa [hmem, hxc] using this
    · simp only [subscribe, hc] at hx
      rw [hget_hsetOne] at hx
      by_cases hxc : x = c
      · rw [if_pos hxc] at hx
        cases hx
        exact ⟨List.nodup_singleton h, by simp⟩
      · rw [if_neg hxc] at hx
        exact i2 x hs hx
    · simp only [subscribe, hc]
      by_cases hmem : c ∈ s.transportSubs
      · simpa [hmem] using i3
      · simpa [hmem] using List.nodup_cons.mpr ⟨hmem, i3⟩
  | some hs =>
    by_cases hmem : h ∈ hs
    · simpa [subscribe, hc, hmem] using ⟨i1, i2, i3⟩
    · refine ⟨fun x => ?_, fun x hs2 hx => ?_, ?_⟩
      · simp only [subscribe, hc, if_neg hmem]
        rw [hget_hsetOne]
        by_cases hxc : x = c
        · subst hxc
          simp only [if_pos rfl]
          have := (i1 x).mpr ⟨hs, hc, (i2 x hs hc).2⟩
          simp [this]
        · rw [if_neg hxc]
          exact i1 x
      · simp only [subscribe, hc, if_neg hmem] at hx
        rw [hget_hsetOne] at hx
        by_cases hxc : x = c
        · rw [if_pos hxc] at hx
          cases hx
          have hnd := (i2 c hs hc).1
          refine ⟨?_, by simp⟩
          rw [List.nodup_append]
          refine ⟨hnd, List.nodup_singleton h, fun x hx hx1 => ?_⟩
          have hxh : x = h := by simpa using hx1
          exact hmem (hxh ▸ hx)
        · rw [if_neg hxc] at hx
          exact i2 x hs2 hx
      · simpa [subscribe, hc, if_neg hmem] using i3

theorem busInv_unsubscribe (s : BusState) (c : String) (h : Option Handler) (inv : BusInv s) :
    BusInv (unsubscribe s c h).2 := by
  obtain ⟨i1, i2, i3⟩ := inv
  cases h with
  | none =>
    cases hc : hget s.channelHandlers c with
    | none => simpa [unsubscribe, hc] using ⟨i1, i2, i3⟩
    | some hs =>
      refine ⟨fun x => ?_, fun x hs2 hx => ?_, ?_⟩
      · simp only [unsubscribe, hc]
        rw [mem_filter_ne]
        unfold hdel
        rw [hget_filter_ne]
        by_cases hxc : x = c
        · simp [hxc]
        · simpa [hxc] using i1 x
      · simp only [unsubscribe, hc] at hx
        unfold hdel at hx
        rw [hget_filter_ne] at hx
        by_cases hxc : x = c
        · rw [if_pos hxc] at hx
          cases hx
        · rw [if_neg hxc] at hx
          exact i2 x hs2 hx
      · simpa [unsubscribe, hc] using i3.filter _
  | some h =>
    cases hc : hget s.channelHandlers c with
    | none =>
      refine ⟨fun x => ?_, fun x hs2 hx => ?_, ?_⟩
      · simp only [unsubscribe, hc]
        rw [mem_filter_ne]
        by_cases hxc : x = c
        · simp [hxc, hc]
        · simpa [hxc] using i1 x
      · simp only [unsubscribe, hc] at hx
        exact i2 x hs2 hx
      · simpa [unsubscribe, hc] using i3.filter _
    | some hs =>
      by_cases hmem : h ∈ hs
      · obtain ⟨hnd, _⟩ := i2 c hs hc
        obtain ⟨rnd, rmem⟩ := pyListRemove_of_nodup hs h hnd
        by_cases hemp : pyListRemove h hs = []
        · refine ⟨fun x => ?_, fun x hs2 hx => ?_, ?_⟩
          · simp only [unsubscribe, hc, if_pos hmem, if_pos hemp]
            rw [mem_filter_ne]
            unfold hdel
            rw [hget_filter_ne]
            by_cases hxc : x = c
            · simp [hxc]
            · simpa [hxc] using i1 x
          · simp only [unsubscribe, hc, if_pos hmem, if_pos hemp] at hx
            unfold hdel at hx
            rw [hget_filter_ne] at hx
            by_cases hxc : x = c
            · rw [if_pos hxc] at hx
              cases hx
            · rw [if_neg hxc] at hx
              exact i2 x hs2 hx
          · simpa [unsubscribe, hc, if_pos hmem, if_pos hemp] using i3.filter _
        · refine ⟨fun x => ?_, fun x hs2 hx => ?_, ?_⟩
          · simp only [unsubscribe, hc, if_pos hmem, if_neg hemp]
            rw [hget_hsetOne]
            by_cases hxc : x = c
            · subst hxc
              have := (i1 x).mpr ⟨hs, hc, (i2 x hs hc).2⟩
              simp [this, hemp]
            · rw [if_neg hxc]
              exact i1 x
          · simp only [unsubscribe, hc, if_pos hmem, if_neg hemp] at hx
            rw [hget_hsetOne] at hx
            by_cases hxc : x = c
            · rw [if_pos hxc] at hx
              cases hx
              exact ⟨rnd, hemp⟩
            · rw [if_neg hxc] at hx
              exact i2 x hs2 hx
          · simpa [unsubscribe, hc, if_pos hmem, if_neg hemp] using i3
      · simpa [unsubscribe, hc, if_neg hmem] using ⟨i1, i2, i3⟩

theorem busInv_runBus (ops : List BusOp) : BusInv (runBus ops) := by
  have main : ∀ (t : List BusOp) (s : BusState), BusInv s → BusInv (t.foldl runBusOp s) := by
    intro t
    induction t with
    | nil => intro s hs; exact hs
    | cons op rest ih =>
      intro s hs
      rw [List.foldl_cons]
      cases op with
      | sub c h => exact ih _ (busInv_subscribe s c h hs)
      | unsub c h => exact ih _ (busInv_unsubscribe s c h hs)
  refine main ops BusState.initial ⟨fun c => ?_, fun c hs hx => ?_, List.nodup_nil⟩
  · simp [BusState.initial, hget]
  · simp [BusState.initial, hget] at hx

/-- C3: after any interleaving of `subscribe`/`unsubscribe` calls from the
start state, a channel is subscribed on the transport iff it has at least
one registered handler; no handler is registered twice for one channel;
and a `subscribe` on a channel that already has a handler entry performs
no transport action (the transport subscribes once per channel span,
regardless of handler count). -/
theorem subscription_matches_handlers (ops : List BusOp) :
    (∀ c, c ∈ (runBus ops).transportSubs
        ↔ ∃ hs, hget (runBus ops).channelHandlers c = some hs ∧ hs ≠ [])
    ∧ (∀ c hs, hget (runBus ops).channelHandlers c = some hs → hs.Nodup ∧ hs ≠ [])
    ∧ (∀ c h, (hget (runBus ops).channelHandlers c).isSome →
        (subscribe (runBus ops) c h).transportSubs = (runBus ops).transportSubs)
    ∧ (runBus ops).transportSubs.Nodup := by
  obtain ⟨i1, i2, i3⟩ := busInv_runBus ops
  refine ⟨i1, i2, fun c h hc => ?_, i3⟩
  obtain ⟨hs, hhs⟩ := Option.isSome_iff_exists.mp hc
  by_cases hmem : h ∈ hs <;> simp [subscribe, hhs, hmem]

/-- C9: `unsubscribe(channel)` with no handler argument on a channel with
no registered handlers raises `KeyError`, and `unsubscribe(channel,
handler)` on a channel whose handler list does not contain that handler
raises `ValueError`; in both cases the registration state is unchanged. -/
theorem unsubscribe_error_cases (s : BusState) (c : String) (h : Handler) :
    (hget s.channelHandlers c = none →
      unsubscribe s c none = (some .keyError, s))
    ∧ (∀ hs, hget s.channelHandlers c = some hs → h ∉ hs →
      unsubscribe s c (some h) = (some .valueError, s)) := by
  refine ⟨fun hnone => ?_, fun hs hsome hmem => ?_⟩
  · simp [unsubscribe, hnone]
  · simp [unsubscribe, hsome, hmem]

theorem unsubscribe_error_cases_witness :
    (unsubscribe ⟨[("a", [1])], ["a"]⟩ "b" none
      = (some .keyError, ⟨[("a", [1])], ["a"]⟩))
    ∧ (unsubscribe ⟨[("a", [1])], ["a"]⟩ "a" (some 2)
      = (some .valueError, ⟨[("a", [1])], ["a"]⟩)) :=
  ⟨(unsubscribe_error_cases ⟨[("a", [1])], ["a"]⟩ "b" 2).1 (by decide),
   (unsubscribe_error_cases ⟨[("a", [1])], ["a"]⟩ "a" 2).2 [1] (by decide) (by decide)⟩

/-
Listener loop (`RedisMessageBus._listen`).  The body of the loop
decodes one message and runs every handler of its channel inside a single
`try`; here a handler is its behaviour on one delivery: `none` for a
normal return, `some e` for a raised exception `e`.  The pair produced
per message is the number of handlers actually awaited and the error the
`except` clause logged, if any.
-/

/-- A handler callable as invoked by the listener: it receives the decoded
payload and the channel name; `some e` models a raised exception. -/
def HandlerFn := String → String → Option String

/-- Run the `for handler in handlers: await handler(...)` loop of the
source inside its surrounding `try`: handlers run in registration order
and the first exception aborts the loop and is logged. -/
def runHandlers (m : String) (c : String) : List HandlerFn → Nat × Option String
  | [] => (0, none)
  | h :: rest =>
    match h m c with
    | none =>
      let r := runHandlers m c rest
      (r.1 + 1, r.2)
    | some e => (1, some e)

/-- One iteration of the listener loop body for a delivered message:
look up the channel's handlers, decode the payload (a decode failure is
the raised `json.loads` exception, also caught and logged), then fan out. -/
def processMessage (chm : List (String × List HandlerFn))
    (decode : String → Option String) (c : String) (data : String) : Nat × Option String :=
  match hget chm c with
  | none => (0, none)
  | some handlers =>
    match decode data with
    | none => (0, some "JSONDecodeError")
    | some d => runHandlers d c handlers

/-- The listener loop over a stream of delivered messages: every message
is processed; a logged handler error never terminates the loop. -/
def listenLoop (chm : List (String × List HandlerFn)) (decode : String → Option String) :
    List (String × String) → List (Nat × Option String)
  | [] => []
  | (c, d) :: rest => processMessage chm decode c d :: listenLoop chm decode rest

/-- C2 counterexample: two handlers are registered on channel `a` and the
first raises; the listener logs the error and keeps running (the second
delivered message is still processed), but only one of the two handlers
is invoked for the message — the second handler is skipped, contradicting
the claim that the remaining handlers still run for that message. -/
theorem listener_skips_remaining_handlers :
    processMessage [("a", [fun _ _ => some "boom", fun _ _ => none])]
        (fun w => some w) "a" "payload" = (1, some "boom")
    ∧ listenLoop [("a", [fun _ _ => some "boom", fun _ _ => none])]
        (fun w => some w) [("a", "m1"), ("a", "m2")]
        = [(1, some "boom"), (1, some "boom")] := by
  constructor <;> rfl

theorem runHandlers_count (m c : String) (handlers : List HandlerFn) :
    (runHandlers m c handlers).1
      = (if handlers.all (fun h => (h m c).isNone) then handlers.length
         else (handlers.takeWhile (fun h => (h m c).isNone)).length + 1) := by
  induction handlers with
  | nil => simp [runHandlers]
  | cons h rest ih =>
    cases hh : h m c with
    | none =>
      simp only [runHandlers, hh, ih]
      by_cases hall : rest.all (fun h => (h m c).isNone)
      · simp [List.all_cons, hall, hh, List.takeWhile_cons]
      · simp [List.all_cons, hall, hh, List.takeWhile_cons]
    | some e =>
      simp [runHandlers, hh, List.takeWhile_cons]

theorem runHandlers_logged (m c : String) (handlers : List HandlerFn) :
    (runHandlers m c handlers).2
      = (handlers.find? (fun h => (h m c).isSome)).bind (fun h => h m c) := by
  induction handlers with
  | nil => simp [runHandlers]
  | cons h rest ih =>
    cases hh : h m c with
    | none => simp [runHandlers, hh, List.find?_cons, ih]
    | some e => simp [runHandlers, hh, List.find?_cons]

/-- C2 amended: an exception raised by a handler is logged (the logged
error is the first raising handler's) and does not stop the listener loop
— every delivered message is still processed, and the registration state
is never touched by dispatch — but it aborts the fan-out for that message:
exactly the handlers up to and including the first raising one are
invoked, so handlers registered after it are skipped for that message. -/
theorem listener_error_isolation (chm : List (String × List HandlerFn))
    (decode : String → Option String) (msgs : List (String × String))
    (c : String) (d : String) (m : String) (handlers : List HandlerFn)
    (hc : hget chm c = some handlers) (hd : decode d = some m) :
    (listenLoop chm decode msgs).length = msgs.length
    ∧ processMessage chm decode c d = runHandlers m c handlers
    ∧ (runHandlers m c handlers).1
        = (if handlers.all (fun h => (h m c).isNone) then handlers.length
           else (handlers.takeWhile (fun h => (h m c).isNone)).length + 1)
    ∧ (runHandlers m c handlers).2
        = (handlers.find? (fun h => (h m c).isSome)).bind (fun h => h m c) := by
  refine ⟨?_, by simp [processMessage, hc, hd],
    runHandlers_count m c handlers, runHandlers_logged m c handlers⟩
  induction msgs with
  | nil => rfl
  | cons p rest ih =>
    obtain ⟨pc, pd⟩ := p
    simp [listenLoop, ih]

theorem listener_error_isolation_witness :
    (listenLoop [("a", [fun _ _ => some "boom", fun _ _ => none])] (fun w => some w)
        [("a", "m1")]).length = [("a", "m1")].length
    ∧ processMessage [("a", [fun _ _ => some "boom", fun _ _ => none])] (fun w => some w) "a" "m1"
        = runHandlers "m1" "a" [fun _ _ => some "boom", fun _ _ => none]
    ∧ (runHandlers "m1" "a" [fun _ _ => some "boom", fun _ _ => none]).1
        = (if ([fun _ _ => some "boom", fun _ _ => none] : List HandlerFn).all
              (fun h => (h "m1" "a").isNone)
           then ([fun _ _ => some "boom", fun _ _ => none] : List HandlerFn).length
           else (([fun _ _ => some "boom", fun _ _ => none] : List HandlerFn).takeWhile
              (fun h => (h "m1" "a").isNone)).length + 1)
    ∧ (runHandlers "m1" "a" [fun _ _ => some "boom", fun _ _ => none]).2
        = (([fun _ _ => some "boom", fun _ _ => none] : List HandlerFn).find?
            (fun h => (h "m1" "a").isSome)).bind (fun h => h "m1" "a") :=
  listener_error_isolation [("a", [fun _ _ => some "boom", fun _ _ => none])]
    (fun w => some w) [("a", "m1")] "a" "m1" "m1"
    [fun _ _ => some "boom", fun _ _ => none] rfl rfl

/-
Session store (`RedisSessionStore`).  Stored field values are strings
(the connection is opened with `decode_responses=True`); the integer
`created` timestamp is serialized through Python `str()` on write and
read back through `int()`.  Both builtins are embedded on non-negative
decimal inputs via `Nat.digits`.
-/

/-- The character of one decimal digit. -/
def digitToChar (d : Nat) : Char := Char.ofNat (48 + d)

/-- The decimal digit of one character. -/
def charToDigit (c : Char) : Nat := c.toNat - 48

/-- Embedding of Python `str()` on a non-negative integer: its decimal
digits, most significant first. -/
def pyStrOfNat (n : Nat) : String :=
  if n = 0 then "0" else ⟨((Nat.digits 10 n).map digitToChar).reverse⟩

/-- Embedding of Python `int()` on a plain decimal string; `none` models
the `ValueError` raised on any other input. -/
def pyIntOfStr (s : String) : Option Nat :=
  if s.data ≠ [] ∧ s.data.all Char.isDigit then
    some (Nat.ofDigits 10 ((s.data.map charToDigit).reverse))
  else none

theorem charToDigit_digitToChar (d : Nat) (h : d < 10) :
    charToDigit (digitToChar d) = d := by
  interval_cases d <;> rfl

theorem digitToChar_isDigit (d : Nat) (h : d < 10) :
    (digitToChar d).isDigit = true := by
  interval_cases d <;> rfl

theorem pyIntOfStr_pyStrOfNat (n : Nat) : pyIntOfStr (pyStrOfNat n) = some n := by
  by_cases h0 : n = 0
  · subst h0
    rfl
  · unfold pyStrOfNat pyIntOfStr
    rw [if_neg h0]
    have hlt : ∀ d ∈ Nat.digits 10 n, d < 10 := fun d hd =>
      Nat.digits_lt_base (by norm_num) hd
    have hne : Nat.digits 10 n ≠ [] := Nat.digits_ne_nil_iff_ne_zero.mpr h0
    have hdata : (⟨((Nat.digits 10 n).map digitToChar).reverse⟩ : String).data
        = ((Nat.digits 10 n).map digitToChar).reverse := rfl
    rw [if_pos]
    · congr 1
      rw [hdata, List.map_reverse, List.reverse_reverse, List.map_map]
      have : ∀ d ∈ Nat.digits 10 n, (charToDigit ∘ digitToChar) d = d := fun d hd =>
        charToDigit_digitToChar d (hlt d hd)
      rw [List.map_congr_left this]
      simpa using Nat.ofDigits_digits 10 n
    · rw [hdata]
      constructor
      · simp [hne]
      · rw [List.all_eq_true]
        intro c hc
        rw [List.mem_reverse, List.mem_map] at hc
        obtain ⟨d, hd, rfl⟩ := hc
        exact digitToChar_isDigit d (hlt d hd)

/-- The parts of an HTTP request the session store reads: the
`Authorization` header and the `__Host-session_token` cookie. -/
structure Request where
  authHeader : Option String
  cookie : Option String

/-- Split a character list at every character satisfying `p`, keeping
empty pieces (the helper behind the embeddings of Python `str.split`). -/
def splitCharP (p : Char → Bool) : List Char → List (List Char)
  | [] => [[]]
  | c :: rest =>
    if p c then [] :: splitCharP p rest
    else
      match splitCharP p rest with
      | [] => [[c]]
      | g :: gs => (c :: g) :: gs

/-- Embedding of Python `str.split()` with no argument: split on runs of
whitespace, discarding empty pieces. -/
def pySplitWs (s : String) : List String :=
  ((splitCharP Char.isWhitespace s.data).map (fun l => ⟨l⟩)).filter (fun x => x ≠ "")

/-- Embedding of Python `str.split(sep)` with a one-character separator:
split at every separator occurrence, keeping empty pieces. -/
def pySplitOn (sep : Char) (s : String) : List String :=
  (splitCharP (fun c => c = sep) s.data).map (fun l => ⟨l⟩)

/-- Embedding of `RedisSessionStore.load_cookie`: an
`Authorization: Bearer token` credential wins; anything else falls back
to the base class, which returns the same-named cookie (modelled from the
spec: `aiohttp_session.AbstractStorage.load_cookie` is library code
outside these sources and returns the value of the configured cookie,
or `None`). -/
def load_cookie (req : Request) : Option String :=
  match req.authHeader with
  | some auth =>
    let s := pySplitWs auth
    if s.length = 2 ∧ s[0]? = some "Bearer" then s[1]?
    else req.cookie
  | none => req.cookie

/-- The session object reconstructed by the store (the aiohttp `Session`
fields the claims observe: identity, creation time, the key/value mapping
and the new flag). -/
structure Session where
  identity : Option String
  created : Nat
  fields : RMap
  new : Bool

/-- Embedding of `aiohttp_session.Session(None, data=None, new=True)`:
fresh, empty, new; its creation time is the current clock. -/
def newSession (now : Nat) : Session := ⟨none, now, [], true⟩

/-- Embedding of `RedisSessionStore._storage_key` (a `None` identity
prints as the string `None` in the f-string). -/
def storage_key (sessionId : Option String) : String :=
  "moonship:session:" ++ (match sessionId with | some i => i | none => "None")

/-- The store configuration: the optional idle session expiry. -/
structure SessionStoreCfg where
  idleSessionExpiryMsec : Option Nat

/-- Embedding of `RedisSessionStore.load_session`.  `none` models an
uncaught exception (`KeyError` when the stored map lacks `created`,
`ValueError` when it is not a decimal); otherwise the session and the
possibly expiry-refreshed store are returned. -/
def load_session (cfg : SessionStoreCfg) (now : Nat) (req : Request) (st : Store) :
    Option (Session × Store) :=
  match load_cookie req with
  | none => some (newSession now, st)
  | some sessionId =>
    if map_get_entries (storage_key (some sessionId)) st = [] then
      some (newSession now, st)
    else
      match hget (map_get_entries (storage_key (some sessionId)) st) "created" with
      | none => none
      | some createdStr =>
        match pyIntOfStr createdStr with
        | none => none
        | some created =>
          some (⟨some sessionId, created,
                 hdel (map_get_entries (storage_key (some sessionId)) st) "created", false⟩,
                match cfg.idleSessionExpiryMsec with
                | some ms => expireKey (storage_key (some sessionId)) ms st
                | none => st)

/-- Embedding of `RedisSessionStore.save_session`: an empty session
clears the cookie and deletes the backing key; otherwise the `created`
timestamp is re-inserted into the field map and the whole map is
replaced by a bulk delete / map_put (/ expire) commit; the second
component is the cookie written to the response. -/
def save_session (cfg : SessionStoreCfg) (session : Session) (st : Store) :
    Store × Option String :=
  let key := storage_key session.identity
  if session.fields = [] then
    (deleteKey key st, none)
  else
    let sessionSaveData := hsetOne session.fields "created" (pyStrOfNat session.created)
    let steps := [BulkStep.delete key, BulkStep.hset key sessionSaveData]
    let steps := match cfg.idleSessionExpiryMsec with
                 | some ms => steps ++ [BulkStep.pexpire key ms]
                 | none => steps
    (executeBulk steps st, session.identity)

theorem keysOf_hsetOne_nodup {α : Type} (m : List (String × α)) (f : String) (v : α)
    (h : (keysOf m).Nodup) : (keysOf (hsetOne m f v)).Nodup := by
  unfold hsetOne keysOf
  refine List.nodup_cons.mpr ⟨fun hc => ?_, ?_⟩
  · rw [List.mem_map] at hc
    obtain ⟨p, hp, hpf⟩ := hc
    rw [List.mem_filter] at hp
    have : p.1 ≠ f := by simpa using hp.2
    exact this hpf
  · exact List.Nodup.sublist (List.Sublist.map Prod.fst (List.filter_sublist m)) h

theorem save_session_hashes (cfg : SessionStoreCfg) (session : Session) (st : Store)
    (hne : session.fields ≠ []) :
    ((save_session cfg session st).1).hashes (storage_key session.identity)
      = hsetMapping []
          (hsetOne session.fields "created" (pyStrOfNat session.created)) := by
  unfold save_session
  rw [if_neg hne]
  cases cfg.idleSessionExpiryMsec <;>
    simp [executeBulk, applyStep]

/-- C5: saving a non-empty session and loading it back under the same
identifier reconstructs an equivalent field set together with the original
`created` value (which is re-inserted into the persisted map on every
save), and an intervening idle-expiry refresh of the backing key does not
change the reconstructed fields.  The session mapping is a Python dict
(unique keys) that does not itself use the reserved `created` field. -/
theorem session_round_trip (cfg : SessionStoreCfg) (now ms : Nat) (sid : String)
    (sess : Session) (st : Store)
    (hid : sess.identity = some sid)
    (hne : sess.fields ≠ [])
    (hnd : (keysOf sess.fields).Nodup)
    (hcr : hget sess.fields "created" = none) :
    ∃ loaded st3,
      load_session cfg now ⟨none, some sid⟩
          (expireKey (storage_key (some sid)) ms ((save_session cfg sess st).1))
        = some (loaded, st3)
      ∧ loaded.identity = some sid
      ∧ loaded.created = sess.created
      ∧ loaded.new = false
      ∧ (∀ f, hget loaded.fields f = hget sess.fields f) := by
  have hsave := save_session_hashes cfg sess st hne
  rw [hid] at hsave
  set saveData := hsetOne sess.fields "created" (pyStrOfNat sess.created) with hsd
  have hsdnd : (keysOf saveData).Nodup := keysOf_hsetOne_nodup sess.fields _ _ hnd
  have hstored : (expireKey (storage_key (some sid)) ms
      ((save_session cfg sess st).1)).hashes (storage_key (some sid))
      = hsetMapping [] saveData := by
    simpa [expireKey] using hsave
  have hlookup : ∀ f, hget (hsetMapping [] saveData) f = hget saveData f := by
    intro f
    rw [hget_hsetMapping saveData [] hsdnd f]
    cases hv : hget saveData f <;> simp [hget]
  have hcreated : hget (hsetMapping [] saveData) "created"
      = some (pyStrOfNat sess.created) := by
    rw [hlookup, hsd, hget_hsetOne]
    simp
  have hnonempty : hsetMapping [] saveData ≠ [] := by
    intro hc
    rw [hc] at hcreated
    cases hcreated
  set ST := expireKey (storage_key (some sid)) ms ((save_session cfg sess st).1) with hST
  refine ⟨⟨some sid, sess.created, hdel (hsetMapping [] saveData) "created", false⟩,
    (match cfg.idleSessionExpiryMsec with
     | some ms2 => expireKey (storage_key (some sid)) ms2 ST
     | none => ST), ?_, rfl, rfl, rfl, fun f => ?_⟩
  · unfold load_session
    rw [show load_cookie ⟨none, some sid⟩ = some sid from rfl]
    simp only [map_get_entries]
    rw [hstored, if_neg hnonempty, hcreated]
    simp [pyIntOfStr_pyStrOfNat]
  · unfold hdel
    rw [hget_filter_ne]
    by_cases hf : f = "created"
    · rw [if_pos hf, hf, hcr]
    · rw [if_neg hf, hlookup f, hsd, hget_hsetOne, if_neg hf]

theorem session_round_trip_witness :
    ∃ loaded st3,
      load_session ⟨none⟩ 0 ⟨none, some "s"⟩
          (expireKey (storage_key (some "s")) 7
            ((save_session ⟨none⟩ ⟨some "s", 5, [("user", "admin")], false⟩ Store.empty).1))
        = some (loaded, st3)
      ∧ loaded.identity = some "s"
      ∧ loaded.created = 5
      ∧ loaded.new = false
      ∧ (∀ f, hget loaded.fields f = hget [("user", "admin")] f) :=
  session_round_trip ⟨none⟩ 0 7 "s" ⟨some "s", 5, [("user", "admin")], false⟩ Store.empty
    rfl (by decide) (by decide) rfl

/-- C7: session-identifier extraction tries an `Authorization: Bearer`
credential first and falls back to the same-named cookie; with neither
present, and likewise when the stored record under the identifier's key
is missing or empty, `load_session` yields a fresh, empty, new session
and leaves the store untouched. -/
theorem session_identifier_extraction (cfg : SessionStoreCfg) (now : Nat)
    (req : Request) (t sid : String) (st : Store) :
    ((newSession now).identity = none ∧ (newSession now).fields = []
      ∧ (newSession now).new = true)
    ∧ (∀ auth, req.authHeader = some auth → pySplitWs auth = ["Bearer", t] →
        load_cookie req = some t)
    ∧ (req.authHeader = none → load_cookie req = req.cookie)
    ∧ (∀ auth, req.authHeader = some auth →
        ¬((pySplitWs auth).length = 2 ∧ (pySplitWs auth)[0]? = some "Bearer") →
        load_cookie req = req.cookie)
    ∧ (req.authHeader = none → req.cookie = none →
        load_session cfg now req st = some (newSession now, st))
    ∧ (load_cookie req = some sid → map_get_entries (storage_key (some sid)) st = [] →
        load_session cfg now req st = some (newSession now, st)) := by
  refine ⟨⟨rfl, rfl, rfl⟩, fun auth ha hs => ?_, fun ha => ?_, fun auth ha hc => ?_,
    fun ha hcook => ?_, fun hlc hempty => ?_⟩
  · simp [load_cookie, ha, hs]
  · simp [load_cookie, ha]
  · simp only [load_cookie, ha]
    rw [if_neg hc]
  · simp [load_session, load_cookie, ha, hcook]
  · unfold load_session
    rw [hlc]
    simp [hempty]

theorem session_identifier_extraction_witness :
    load_cookie ⟨some "Bearer tok", some "cookie"⟩ = some "tok"
    ∧ load_session ⟨none⟩ 3 ⟨none, none⟩ Store.empty = some (newSession 3, Store.empty)
    ∧ load_session ⟨none⟩ 3 ⟨none, some "s"⟩ Store.empty = some (newSession 3, Store.empty) :=
  ⟨(session_identifier_extraction ⟨none⟩ 3 ⟨some "Bearer tok", some "cookie"⟩ "tok" "s"
      Store.empty).2.1 "Bearer tok" rfl (by decide),
   (session_identifier_extraction ⟨none⟩ 3 ⟨none, none⟩ "t" "s" Store.empty).2.2.2.2.1 rfl rfl,
   (session_identifier_extraction ⟨none⟩ 3 ⟨none, some "s"⟩ "t" "s" Store.empty).2.2.2.2.2
     rfl rfl⟩

/-
HTTP gateway (`moonship/core/api.py`): the engine-command reply handler,
the error middleware and the strategy read.
-/

/-- Modelled from the spec: the enumerated outcome values of
`moonship.core.ipc.MessageResult` (module `moonship/core/ipc.py` is not
among the sources); the spec specifies a success outcome and a
missing/invalid-parameter outcome naming the offending parameter. -/
inductive MessageResult where
  | success
  | missingOrInvalidParameter

/-- Modelled from the spec: the wire value of each outcome, two distinct
strings compared against the reply's `result` field. -/
def MessageResult.value : MessageResult → String
  | .success => "success"
  | .missingOrInvalidParameter => "missing_or_invalid_parameter"

/-- The observable parts of an `aiohttp` response built by the gateway. -/
structure HttpResponse where
  status : Nat
  contentType : String
  reason : String
  errorMsg : Option String
deriving DecidableEq, Repr

/-- Embedding of `APIService._ok()` with no body: a bare 200 response. -/
def okResponse : HttpResponse := ⟨200, "application/octet-stream", "", none⟩

/-- Embedding of `APIService._error_response`: a JSON body naming the
error and the status. -/
def error_response (error : String) (status : Nat) : HttpResponse :=
  ⟨status, "application/json", "", some error⟩

/-- Embedding of `APIService._bad_request`. -/
def bad_request (error : String) : HttpResponse := error_response error 400

/-- Embedding of `APIService._timeout`. -/
def timeoutResponse : HttpResponse := error_response "Operation timeout" 504

/-- Embedding of Python f-string interpolation of a `dict.get` result
(`None` prints as the text `None`). -/
def pyFormatOpt : Option String → String
  | some s => s
  | none => "None"

/-- Embedding of `APIService._handle_engine_command_rsp`: a present
`result` field is matched against the success and missing-parameter
outcomes; anything else is an internal error response. -/
def handle_engine_command_rsp (rsp : RMap) : HttpResponse :=
  match hget rsp "result" with
  | some result =>
    if result = MessageResult.success.value then okResponse
    else if result = MessageResult.missingOrInvalidParameter.value then
      bad_request ("Missing or invalid: " ++ pyFormatOpt (hget rsp "parameter"))
    else error_response "Internal server error" 500
  | none => error_response "Internal server error" 500

/-- The ways the wrapped route handler can come back to the
`handle_error` middleware. -/
inductive HandlerOutcome where
  | completed (rsp : HttpResponse)
  | httpException (reason : String) (status : Nat)
  | timeoutError
  | otherError

/-- Embedding of the `APIService.handle_error` middleware: non-error and
JSON responses pass through, other responses and `HTTPException`s are
normalized to JSON error responses, a `TimeoutError` becomes the 504
gateway-timeout response, any other exception a 500. -/
def handle_error : HandlerOutcome → HttpResponse
  | .completed rsp =>
    if rsp.status < 400 ∨ rsp.contentType = "application/json" then rsp
    else error_response rsp.reason rsp.status
  | .httpException reason status => error_response reason status
  | .timeoutError => timeoutResponse
  | .otherError => error_response "Internal server error" 500

/-- C6: the gateway maps the engine reply's structured `result` to the
HTTP outcome — success to 200, a missing/invalid-parameter result to a
400 naming the offending `parameter`, any other reply to a 500 — and a
request/reply `TimeoutError` surfaces through the error middleware as the
504 gateway-timeout response, distinct from every backend-failure 500;
the reply-handler responses themselves pass through the middleware
unchanged. -/
theorem engine_command_http_mapping (rsp : RMap) (r : String) :
    (hget rsp "result" = some MessageResult.success.value →
      handle_engine_command_rsp rsp = okResponse ∧ okResponse.status = 200)
    ∧ (hget rsp "result" = some MessageResult.missingOrInvalidParameter.value →
      handle_engine_command_rsp rsp
          = bad_request ("Missing or invalid: " ++ pyFormatOpt (hget rsp "parameter"))
      ∧ (handle_engine_command_rsp rsp).status = 400)
    ∧ (hget rsp "result" = some r → r ≠ MessageResult.success.value →
        r ≠ MessageResult.missingOrInvalidParameter.value →
        (handle_engine_command_rsp rsp).status = 500)
    ∧ (hget rsp "result" = none → (handle_engine_command_rsp rsp).status = 500)
    ∧ handle_error .timeoutError = timeoutResponse
    ∧ timeoutResponse.status = 504
    ∧ (∀ e, handle_error .timeoutError ≠ error_response e 500)
    ∧ (∀ rsp2, handle_error (.completed (handle_engine_command_rsp rsp2))
        = handle_engine_command_rsp rsp2) := by
  refine ⟨fun h => ?_, fun h => ?_, fun h h1 h2 => ?_, fun h => ?_, rfl, rfl,
    fun e => ?_, fun rsp2 => ?_⟩
  · exact ⟨by simp [handle_engine_command_rsp, h, MessageResult.value], rfl⟩
  · constructor <;>
      simp [handle_engine_command_rsp, h, MessageResult.value, bad_request, error_response]
  · simp [handle_engine_command_rsp, h, h1, h2, error_response]
  · simp [handle_engine_command_rsp, h, error_response]
  · simp [handle_error, timeoutResponse, error_response]
  · unfold handle_engine_command_rsp
    cases hr : hget rsp2 "result" with
    | none => simp [handle_error, error_response]
    | some r2 =>
      by_cases hs : r2 = MessageResult.success.value
      · simp [hs, handle_error, okResponse]
      · have hne : MessageResult.missingOrInvalidParameter.value
            ≠ MessageResult.success.value := by decide
        by_cases hm : r2 = MessageResult.missingOrInvalidParameter.value <;>
          simp [hs, hm, hne, handle_error, bad_request, error_response]

theorem engine_command_http_mapping_witness :
    (handle_engine_command_rsp [("result", "success")] = okResponse ∧ okResponse.status = 200)
    ∧ (handle_engine_command_rsp [("result", "missing_or_invalid_parameter"), ("parameter", "strategy")]
        = bad_request ("Missing or invalid: " ++ pyFormatOpt
            (hget [("result", "missing_or_invalid_parameter"), ("parameter", "strategy")] "parameter"))
      ∧ (handle_engine_command_rsp
          [("result", "missing_or_invalid_parameter"), ("parameter", "strategy")]).status = 400)
    ∧ (handle_engine_command_rsp [("result", "borked")]).status = 500 :=
  ⟨(engine_command_http_mapping [("result", "success")] "x").1 rfl,
   (engine_command_http_mapping
      [("result", "missing_or_invalid_parameter"), ("parameter", "strategy")] "x").2.1 rfl,
   (engine_command_http_mapping [("result", "borked")] "borked").2.2.1 rfl
     (by decide) (by decide)⟩

/-- One strategy-configuration value after the read: either the stored
string or the split markets list. -/
inductive CfgVal where
  | str (s : String)
  | strs (l : List String)
deriving DecidableEq, Repr

/-- The structure assembled by `APIService._get_strategy`. -/
structure StrategyInfo where
  attrs : RMap
  name : String
  engine : String
  config : List (String × CfgVal)
deriving DecidableEq, Repr

/-- Embedding of `APIService._get_strategy`: read the strategy hash (an
empty map means no such strategy), attach name, engine and the config
hash, and split a string-valued `markets` config field on commas into an
ordered list. -/
def get_strategy (name engine : String) (st : Store) : Option StrategyInfo :=
  if (map_get_entries ("moonship." ++ engine ++ ".strategies." ++ name) st).length = 0 then
    none
  else some
    { attrs := map_get_entries ("moonship." ++ engine ++ ".strategies." ++ name) st,
      name := name,
      engine := engine,
      config := (map_get_entries
          ("moonship." ++ engine ++ ".strategies." ++ name ++ ".config") st).map
        (fun p => if p.1 = "markets" then (p.1, CfgVal.strs (pySplitOn ',' p.2))
                  else (p.1, CfgVal.str p.2)) }

/-- The store of the C8 scenario: the two `map_put` calls of the spec. -/
def c8Store : Store :=
  map_put "moonship.x.strategies.s1.config" [("markets", "BTC-USD,ETH-USD")] true
    (map_put "moonship.x.strategies.s1" [("status", "running")] true Store.empty)

/-- C8: with `moonship.x.strategies.s1` holding the status map and
`moonship.x.strategies.s1.config` holding the delimited markets string,
fetching strategy `s1` of engine `x` yields a structure whose config
`markets` field is the ordered list of the comma-separated market names. -/
theorem get_strategy_markets_split :
    ∃ info, get_strategy "s1" "x" c8Store = some info
      ∧ hget info.config "markets" = some (CfgVal.strs ["BTC-USD", "ETH-USD"])
      ∧ hget info.attrs "status" = some "running"
      ∧ info.name = "s1" ∧ info.engine = "x" := by
  refine ⟨_, rfl, ?_, ?_, rfl, rfl⟩ <;> rfl

end Moonship
